import Mathlib

/-!
Verification of the vanity-hash commit search engine (git-custom-hash).

Byte strings are modelled as `List Nat` with entries below 256; `u64`
arithmetic is `Nat` arithmetic reduced modulo `2^64` where the source can
wrap.  The SHA-1 function is embedded in full, so the Match Predicate and
the Commit Encoder below compute exactly what `check_commit_with_nonce`
in `src/main.rs` computes.
-/

namespace GitCustomHash

/-- Truncation to 32 bits, the width of SHA-1 words. -/
def w32 (x : Nat) : Nat := x % 4294967296

/-- Left rotation of a 32-bit word by `s` places (for `x < 2^32`). -/
def rotl (s x : Nat) : Nat := (x * 2 ^ s + x / 2 ^ (32 - s)) % 4294967296

/-- SHA-1 round function `f_t`. -/
def sha1F (t b c d : Nat) : Nat :=
  if t < 20 then (b &&& c) ||| ((b ^^^ 4294967295) &&& d)
  else if t < 40 then (b ^^^ c) ^^^ d
  else if t < 60 then ((b &&& c) ||| (b &&& d)) ||| (c &&& d)
  else (b ^^^ c) ^^^ d

/-- SHA-1 round constant `K_t`. -/
def sha1K (t : Nat) : Nat :=
  if t < 20 then 1518500249 else if t < 40 then 1859775393
  else if t < 60 then 2400959708 else 3395469782

/-- Next message-schedule word from the reversed list of previous words:
`W_t = rotl1 (W_{t-3} xor W_{t-8} xor W_{t-14} xor W_{t-16})`. -/
def nextW (prev : List Nat) : Nat :=
  rotl 1 (((prev.getD 2 0) ^^^ (prev.getD 7 0)) ^^^ ((prev.getD 13 0) ^^^ (prev.getD 15 0)))

/-- Produce `k` further schedule words onto the reversed accumulator, then
return the whole schedule in order. -/
def expandW : Nat → List Nat → List Nat
  | 0, acc => acc.reverse
  | k + 1, acc => expandW k (nextW acc :: acc)

/-- The 80-word SHA-1 message schedule from the 16 block words. -/
def schedule (ws : List Nat) : List Nat := expandW 64 ws.reverse

/-- One SHA-1 round: state is (round index, (a,b,c,d,e)). -/
def sha1Round (acc : Nat × (Nat × Nat × Nat × Nat × Nat)) (w : Nat) :
    Nat × (Nat × Nat × Nat × Nat × Nat) :=
  let t := acc.1
  let (a, b, c, d, e) := acc.2
  (t + 1, (w32 (rotl 5 a + sha1F t b c d + e + sha1K t + w), a, rotl 30 b, c, d))

/-- Big-endian 32-bit word read at byte offset `i`. -/
def word32At (l : List Nat) (i : Nat) : Nat :=
  l.getD i 0 * 16777216 + l.getD (i + 1) 0 * 65536 + l.getD (i + 2) 0 * 256 + l.getD (i + 3) 0

/-- SHA-1 compression of one 64-byte block into the running state. -/
def sha1Compress (h : Nat × Nat × Nat × Nat × Nat) (block : List Nat) :
    Nat × Nat × Nat × Nat × Nat :=
  let ws := schedule ((List.range 16).map (fun i => word32At block (4 * i)))
  let (h0, h1, h2, h3, h4) := h
  let fin := ws.foldl sha1Round (0, (h0, h1, h2, h3, h4))
  let (a, b, c, d, e) := fin.2
  (w32 (h0 + a), w32 (h1 + b), w32 (h2 + c), w32 (h3 + d), w32 (h4 + e))

/-- The 8-byte big-endian encoding of the bit length. -/
def lenBytes64 (L : Nat) : List Nat :=
  [L / 72057594037927936 % 256, L / 281474976710656 % 256, L / 1099511627776 % 256,
   L / 4294967296 % 256, L / 16777216 % 256, L / 65536 % 256, L / 256 % 256, L % 256]

/-- SHA-1 padding: a 0x80 byte, zeros to 56 mod 64, then the bit length. -/
def sha1Pad (msg : List Nat) : List Nat :=
  msg ++ 128 :: (List.replicate ((119 - msg.length % 64) % 64) 0 ++ lenBytes64 (8 * msg.length))

/-- Split a byte string into 64-byte blocks (structural recursion on fuel,
`fuel = l.length` always suffices since each step consumes 64 bytes). -/
def toBlocksAux : Nat → List Nat → List (List Nat)
  | 0, _ => []
  | _, [] => []
  | fuel + 1, l => l.take 64 :: toBlocksAux fuel (l.drop 64)

/-- Split a byte string into 64-byte blocks. -/
def toBlocks (l : List Nat) : List (List Nat) := toBlocksAux l.length l

/-- Big-endian bytes of a 32-bit word. -/
def wordBytes (x : Nat) : List Nat :=
  [x / 16777216 % 256, x / 65536 % 256, x / 256 % 256, x % 256]

/-- The SHA-1 digest (20 bytes) of a byte string. -/
def sha1 (msg : List Nat) : List Nat :=
  let fin := (toBlocks (sha1Pad msg)).foldl sha1Compress
      (1732584193, 4023233417, 2562383102, 271733878, 3285377520)
  wordBytes fin.1 ++ wordBytes fin.2.1 ++ wordBytes fin.2.2.1 ++
    wordBytes fin.2.2.2.1 ++ wordBytes fin.2.2.2.2

/-- Lowercase hexadecimal digit byte for a nibble (`format "{:x}"`). -/
def hexDigitByte (d : Nat) : Nat := if d < 10 then 48 + d else 87 + d

/-- Lowercase hex rendering of the digest, as in `format "{:x}"` on the
finalized hash: two digits per byte, 40 bytes total. -/
def hexDigest (msg : List Nat) : List Nat :=
  ((sha1 msg).map (fun b => [hexDigitByte (b / 16), hexDigitByte (b % 16)])).flatten

/-- `hay` starts with `pat`, byte for byte — Rust `str::starts_with`. -/
def listStartsWith : List Nat → List Nat → Bool
  | _, [] => true
  | [], _ :: _ => false
  | a :: hay, b :: pat => (a == b) && listStartsWith hay pat

/-- `pat` occurs somewhere inside `hay` — Rust `str::contains`. -/
def listContainsSub : List Nat → List Nat → Bool
  | [], pat => listStartsWith [] pat
  | a :: t, pat => listStartsWith (a :: t) pat || listContainsSub t pat

/-- `pat` occurs in `hay` at position `i`. -/
def subAt (hay pat : List Nat) (i : Nat) : Bool := listStartsWith (hay.drop i) pat

/-- Search downward from position `k` for the last occurrence. -/
def rfindAux (hay pat : List Nat) : Nat → Option Nat
  | 0 => if subAt hay pat 0 then some 0 else none
  | k + 1 => if subAt hay pat (k + 1) then some (k + 1) else rfindAux hay pat k

/-- Byte index of the last occurrence of `pat` in `hay` — Rust `str::rfind`. -/
def rfind (hay pat : List Nat) : Option Nat := rfindAux hay pat hay.length

/-- Lowercase hex digits of `n`, most significant first, onto `acc`
(structural on fuel; `fuel = n` always suffices). -/
def hexDigitsAux : Nat → Nat → List Nat → List Nat
  | 0, _, acc => acc
  | fuel + 1, n, acc =>
    if n = 0 then acc else hexDigitsAux fuel (n / 16) (hexDigitByte (n % 16) :: acc)

/-- Rust `format "{:x}"`: lowercase, unpadded hexadecimal rendering of `n`. -/
def hexBytes (n : Nat) : List Nat := if n = 0 then [48] else hexDigitsAux n n []

/-- Decimal digits of `n`, most significant first, onto `acc`. -/
def decDigitsAux : Nat → Nat → List Nat → List Nat
  | 0, _, acc => acc
  | fuel + 1, n, acc =>
    if n = 0 then acc else decDigitsAux fuel (n / 10) ((48 + n % 10) :: acc)

/-- Rust `format "{}"` on a `usize`: decimal rendering of `n`. -/
def decBytes (n : Nat) : List Nat := if n = 0 then [48] else decDigitsAux n n []

/-- Parse a decimal digit string back to the number it denotes. -/
def decValue (ds : List Nat) : Nat := ds.foldl (fun a d => a * 10 + (d - 48)) 0

/-- The bytes of the literal `"commit "`. -/
def commitTag : List Nat := [99, 111, 109, 109, 105, 116, 32]

/-- The encoding part of `check_commit_with_nonce` (src/main.rs lines
19-38): locate the last occurrence of the committer name in the raw
header, splice in `hex(nonce) ++ "_" ++ name`, append a newline and the
raw message, and prepend the `"commit <len>\0"` object-store preface.
Returns `none` when the committer name does not occur in the header. -/
def check_encode (raw_header raw_message committer_name : List Nat) (nonce : Nat) :
    Option (List Nat) :=
  match rfind raw_header committer_name with
  | none => none
  | some pos =>
    let modified_committer := hexBytes nonce ++ 95 :: committer_name
    let new_commit_header :=
      raw_header.take pos ++ modified_committer ++
        raw_header.drop (pos + committer_name.length) ++ [10]
    let raw_commit := new_commit_header ++ raw_message
    some (commitTag ++ decBytes raw_commit.length ++ 0 :: raw_commit)

/-- The matching part of `check_commit_with_nonce` (src/main.rs lines
40-52): hash the encoded commit, render the digest in lowercase hex, and
compare: `starts_with` on the desired prefix, and additionally
`contains` on the hidden message when one is supplied. -/
def hashMatches (full_commit desired_hash_start : List Nat)
    (hidden_message : Option (List Nat)) : Bool :=
  let hash_hex := hexDigest full_commit
  match hidden_message with
  | some hidden => listStartsWith hash_hex desired_hash_start && listContainsSub hash_hex hidden
  | none => listStartsWith hash_hex desired_hash_start

/-- `check_commit_with_nonce` from src/main.rs lines 11-56: encode the
commit with the trial nonce and test the hash condition; an absent
anchor yields `false`. -/
def check_commit_with_nonce (raw_header raw_message committer_name : List Nat)
    (nonce : Nat) (desired_hash_start : List Nat) (hidden_message : Option (List Nat)) : Bool :=
  match check_encode raw_header raw_message committer_name nonce with
  | some full_commit => hashMatches full_commit desired_hash_start hidden_message
  | none => false

/-- A byte that `char::is_digit(16)` accepts: `0-9`, `a-f`, `A-F`. -/
def isHexByte (b : Nat) : Bool :=
  (48 ≤ b && b ≤ 57) || (97 ≤ b && b ≤ 102) || (65 ≤ b && b ≤ 70)

/-- Whether the regex `^[0-9a-fA-F]+_` matches: the maximal leading run
of hex bytes is nonempty and is followed by an underscore (the character
class excludes the underscore, so no backtracking case arises). -/
def hasLeadingTag (s : List Nat) : Bool :=
  let k := (s.takeWhile isHexByte).length
  0 < k && s.getD k 0 == 95

/-- `sanitize_committer_name` from src/main.rs lines 133-137:
`Regex::replace` removes the first (anchored, hence only) match of
`^[0-9a-fA-F]+_`. -/
def sanitize_committer_name (committer_name : List Nat) : List Nat :=
  if hasLeadingTag committer_name then
    committer_name.drop ((committer_name.takeWhile isHexByte).length + 1)
  else committer_name

/-- 2^64, the modulus of `u64` arithmetic. -/
def u64Mod : Nat := 18446744073709551616

/-- The nonces tested for a block claimed at `v` — the body of the
`for i in 0..99` loop in `thread_logic` (src/main.rs lines 101-117):
`number_under_test + i` for `i = 0, …, 98`. -/
def blockNonces (v : Nat) : List Nat :=
  (List.range 99).map (fun i => (v + i) % u64Mod)

/-- `thread_logic` specialized to a single worker (src/main.rs lines
92-118): with one thread the result register stays empty until this
worker publishes, so the top-of-loop early-exit check never fires; each
iteration claims a block via `fetch_add(100)` and returns the first
matching nonce in it, if any.  `fuel` bounds the number of blocks. -/
def searchLoop (check : Nat → Bool) : Nat → Nat → Option Nat
  | 0, _ => none
  | fuel + 1, counter =>
    match (blockNonces counter).find? check with
    | some n => some n
    | none => searchLoop check fuel ((counter + 100) % u64Mod)

/-- The reference brute-force scan of the spec: the first nonce in
`[s, s + fuel)`, in increasing order, that satisfies `check`. -/
def bruteScan (check : Nat → Bool) (s fuel : Nat) : Option Nat :=
  ((List.range fuel).map (fun i => s + i)).find? check

/-- `compare_exchange(0, n)` on the result register (src/main.rs lines
109-114): set the register to `n` exactly when it still holds the
sentinel 0. -/
def casReg (reg n : Nat) : Nat := if reg = 0 then n else reg

/-- The orchestrator's read of the result register (src/main.rs lines
246-251): a nonzero final value is reported as the winner, zero is
reported as no result. -/
def reportResult (r : Nat) : Option Nat := if r = 0 then none else some r

/-- A byte rendered by `hexDigest`: a decimal digit or `a`-`f`. -/
def isLowerHexDigit (b : Nat) : Bool := (48 ≤ b && b ≤ 57) || (97 ≤ b && b ≤ 102)

/-- The trial predicate at the concrete counterexample template: raw
header `"c A"`, raw message `"m"`, committer name `"A"`, required hash
prefix `"0"`, no hidden message. -/
def cexCheck (n : Nat) : Bool :=
  check_commit_with_nonce [99, 32, 65] [109] [65] n [48] none

/-- The commit object body exactly as the spec describes it: the header
with the occurrence of the committer identity at `pos` replaced by
`hex(nonce) ++ "_" ++ identity`, a newline, then the raw message. -/
def specEncodedBody (raw_header raw_message committer_name : List Nat)
    (nonce pos : Nat) : List Nat :=
  raw_header.take pos ++ (hexBytes nonce ++ 95 :: committer_name) ++
    raw_header.drop (pos + committer_name.length) ++ 10 :: raw_message

/-! ## The concurrent search

One `thread_logic` worker is a small state machine; the shared state is
the allocator counter, the result register, and every worker's status.
Each atomic access of the source (the early-exit load, the
`fetch_add(100)`, and the `compare_exchange`) is one transition; the
purely local encode-and-hash loop over a claimed block takes no shared
step and is folded into a single transition. -/

/-- Status of one worker running `thread_logic`. -/
inductive WStatus where
  /-- At the top of the outer loop, about to load the result register. -/
  | ready : WStatus
  /-- Has loaded the register and observed the sentinel 0. -/
  | loaded : WStatus
  /-- Has claimed a block via `fetch_add(100)`; holds its nonce list. -/
  | testing : List Nat → WStatus
  /-- Found a matching nonce, about to `compare_exchange`. -/
  | willCas : Nat → WStatus
  /-- Returned. -/
  | stopped : WStatus
deriving DecidableEq

/-- Shared state of the search. -/
structure SearchState where
  /-- The nonce allocator (`number : AtomicU64`). -/
  counter : Nat
  /-- The result register (`shared_result : AtomicU64`), 0 when empty. -/
  reg : Nat
  /-- Status of each worker thread. -/
  workers : List WStatus
deriving DecidableEq

/-- One shared-memory step of some worker, `check` being the trial
predicate `check_commit_with_nonce` applied to the shared template and
condition (src/main.rs lines 92-118). -/
inductive Step (check : Nat → Bool) : SearchState → SearchState → Prop where
  /-- The top-of-loop load observes a nonzero register: return. -/
  | exitEarly (s : SearchState) (i : Nat) :
      s.workers[i]? = some .ready → s.reg ≠ 0 →
      Step check s ⟨s.counter, s.reg, s.workers.set i .stopped⟩
  /-- The top-of-loop load observes the sentinel 0: continue. -/
  | observeEmpty (s : SearchState) (i : Nat) :
      s.workers[i]? = some .ready → s.reg = 0 →
      Step check s ⟨s.counter, s.reg, s.workers.set i .loaded⟩
  /-- `fetch_add(100)`: claim the block starting at the old counter. -/
  | claimBlock (s : SearchState) (i : Nat) :
      s.workers[i]? = some .loaded →
      Step check s
        ⟨(s.counter + 100) % u64Mod, s.reg,
          s.workers.set i (.testing (blockNonces s.counter))⟩
  /-- The local loop finds the first match of the block. -/
  | testBlockHit (s : SearchState) (i : Nat) (ns : List Nat) (n : Nat) :
      s.workers[i]? = some (.testing ns) → ns.find? check = some n →
      Step check s ⟨s.counter, s.reg, s.workers.set i (.willCas n)⟩
  /-- The local loop exhausts the block without a match. -/
  | testBlockMiss (s : SearchState) (i : Nat) (ns : List Nat) :
      s.workers[i]? = some (.testing ns) → ns.find? check = none →
      Step check s ⟨s.counter, s.reg, s.workers.set i .ready⟩
  /-- `compare_exchange(0, n)`, then return whether or not it won. -/
  | casPublish (s : SearchState) (i : Nat) (n : Nat) :
      s.workers[i]? = some (.willCas n) →
      Step check s ⟨s.counter, casReg s.reg n, s.workers.set i .stopped⟩

/-- The orchestrator's initial state: empty register, all workers at the
top of their loop. -/
def InitState (s : SearchState) : Prop :=
  s.reg = 0 ∧ ∀ w ∈ s.workers, w = WStatus.ready

/-- The register invariant: a nonzero register holds a nonce that
passed the trial predicate, and so does any nonce a worker is about to
publish. -/
def RegInv (check : Nat → Bool) (s : SearchState) : Prop :=
  (s.reg ≠ 0 → check s.reg = true) ∧
    ∀ n, WStatus.willCas n ∈ s.workers → check n = true

/-! ## Lemmas about byte-string search -/

theorem listStartsWith_nil (hay : List Nat) : listStartsWith hay [] = true := by
  cases hay <;> rfl

theorem mem_of_listStartsWith {hay pat : List Nat}
    (h : listStartsWith hay pat = true) : ∀ c ∈ pat, c ∈ hay := by
  induction pat generalizing hay with
  | nil => intro c hc; simp at hc
  | cons b bs ih =>
    cases hay with
    | nil => simp [listStartsWith] at h
    | cons a t =>
      simp only [listStartsWith, Bool.and_eq_true, beq_iff_eq] at h
      intro c hc
      rcases List.mem_cons.1 hc with hc | hc
      · exact hc ▸ h.1 ▸ List.mem_cons_self a t
      · exact List.mem_cons_of_mem a (ih h.2 c hc)

theorem rfindAux_some {hay pat : List Nat} :
    ∀ {k i : Nat}, rfindAux hay pat k = some i → subAt hay pat i = true ∧ i ≤ k := by
  intro k
  induction k with
  | zero =>
    intro i h
    unfold rfindAux at h
    split at h
    · cases h; exact ⟨by assumption, Nat.le_refl 0⟩
    · cases h
  | succ k ih =>
    intro i h
    unfold rfindAux at h
    split at h
    · cases h; exact ⟨by assumption, Nat.le_refl _⟩
    · rcases ih h with ⟨h1, h2⟩
      exact ⟨h1, Nat.le_succ_of_le h2⟩

theorem rfindAux_max {hay pat : List Nat} :
    ∀ {k i : Nat}, rfindAux hay pat k = some i →
      ∀ j ≤ k, subAt hay pat j = true → j ≤ i := by
  intro k
  induction k with
  | zero =>
    intro i h j hj _
    exact hj.trans (Nat.le_of_eq rfl) |>.trans (Nat.zero_le i)
  | succ k ih =>
    intro i h j hj hsub
    unfold rfindAux at h
    split at h
    · cases h; exact hj
    · rcases Nat.lt_succ_iff_lt_or_eq.1 (Nat.lt_succ_of_le hj) with hlt | heq
      · exact ih h j (by omega) hsub
      · subst heq; rename_i hns; exact absurd hsub (by simpa using hns)

theorem rfindAux_none {hay pat : List Nat} :
    ∀ {k : Nat}, rfindAux hay pat k = none → ∀ j ≤ k, subAt hay pat j = false := by
  intro k
  induction k with
  | zero =>
    intro h j hj
    interval_cases j
    unfold rfindAux at h
    split at h
    · cases h
    · rename_i hns; simp only [Bool.not_eq_true] at hns; exact hns
  | succ k ih =>
    intro h j hj
    unfold rfindAux at h
    split at h
    · cases h
    · rcases Nat.le_succ_iff.1 hj with hle | heq
      · exact ih h j hle
      · subst heq; rename_i hns; simp only [Bool.not_eq_true] at hns; exact hns

theorem rfind_some_sub {hay pat : List Nat} {i : Nat} (h : rfind hay pat = some i) :
    subAt hay pat i = true :=
  (rfindAux_some h).1

theorem rfind_some_max {hay pat : List Nat} {i : Nat} (h : rfind hay pat = some i) :
    ∀ j ≤ hay.length, subAt hay pat j = true → j ≤ i :=
  rfindAux_max h

theorem rfind_none {hay pat : List Nat} (h : rfind hay pat = none) :
    ∀ j ≤ hay.length, subAt hay pat j = false :=
  rfindAux_none h

/-! ## Lemmas about decimal rendering -/

theorem decDigitsAux_append (fuel : Nat) :
    ∀ (n : Nat) (acc : List Nat),
      decDigitsAux fuel n acc = decDigitsAux fuel n [] ++ acc := by
  induction fuel with
  | zero => intro n acc; rfl
  | succ fuel ih =>
    intro n acc
    by_cases h0 : n = 0
    · simp [decDigitsAux, h0]
    · simp only [decDigitsAux, h0, if_false]
      rw [ih (n / 10) ((48 + n % 10) :: acc), ih (n / 10) [48 + n % 10],
        List.append_assoc]
      rfl

theorem decDigitsAux_fuel :
    ∀ (n fuelA fuelB : Nat), n ≤ fuelA → n ≤ fuelB →
      decDigitsAux fuelA n [] = decDigitsAux fuelB n [] := by
  intro n
  induction n using Nat.strong_induction_on with
  | _ n ih =>
    intro fuelA fuelB hA hB
    by_cases h0 : n = 0
    · subst h0
      cases fuelA <;> cases fuelB <;> simp [decDigitsAux]
    · have h1 : 1 ≤ n := Nat.one_le_iff_ne_zero.2 h0
      obtain ⟨a, rfl⟩ : ∃ a, fuelA = a + 1 :=
        ⟨fuelA - 1, by omega⟩
      obtain ⟨b, rfl⟩ : ∃ b, fuelB = b + 1 :=
        ⟨fuelB - 1, by omega⟩
      simp only [decDigitsAux, h0, if_false]
      rw [decDigitsAux_append a, decDigitsAux_append b]
      have hdiv : n / 10 < n := Nat.div_lt_self (by omega) (by omega)
      rw [ih (n / 10) hdiv a b (by omega) (by omega)]

theorem decDigitsAux_zero (fuel : Nat) : decDigitsAux fuel 0 [] = [] := by
  cases fuel <;> rfl

theorem decValue_snoc (xs : List Nat) (d : Nat) :
    decValue (xs ++ [d]) = decValue xs * 10 + (d - 48) := by
  unfold decValue
  rw [List.foldl_append]
  rfl

theorem decValue_decBytes (n : Nat) : decValue (decBytes n) = n := by
  induction n using Nat.strong_induction_on with
  | _ n ih =>
    by_cases h0 : n = 0
    · subst h0; rfl
    · obtain ⟨m, rfl⟩ : ∃ m, n = m + 1 := ⟨n - 1, by omega⟩
      simp only [decBytes, h0, if_false, decDigitsAux]
      rw [decDigitsAux_append]
      by_cases hq : (m + 1) / 10 = 0
      · rw [hq, decDigitsAux_zero, List.nil_append]
        have h10 : m + 1 < 10 := by omega
        simp [decValue]
        omega
      · have hdiv : (m + 1) / 10 < m + 1 := Nat.div_lt_self (by omega) (by omega)
        have hfuel : decDigitsAux m ((m + 1) / 10) [] =
            decDigitsAux ((m + 1) / 10) ((m + 1) / 10) [] :=
          decDigitsAux_fuel ((m + 1) / 10) m ((m + 1) / 10) (by omega) (Nat.le_refl _)
        have hb : decDigitsAux ((m + 1) / 10) ((m + 1) / 10) [] = decBytes ((m + 1) / 10) := by
          simp [decBytes, hq]
        rw [hfuel, hb, decValue_snoc, ih ((m + 1) / 10) hdiv]
        omega

theorem decDigitsAux_mem (fuel : Nat) :
    ∀ (n : Nat) (acc : List Nat), (∀ b ∈ acc, 48 ≤ b ∧ b ≤ 57) →
      ∀ b ∈ decDigitsAux fuel n acc, 48 ≤ b ∧ b ≤ 57 := by
  induction fuel with
  | zero => intro n acc hacc; exact hacc
  | succ fuel ih =>
    intro n acc hacc
    by_cases h0 : n = 0
    · simpa [decDigitsAux, h0] using hacc
    · simp only [decDigitsAux, h0, if_false]
      refine ih (n / 10) _ ?_
      intro b hb
      rcases List.mem_cons.1 hb with hb | hb
      · subst hb; have := Nat.mod_lt n (show 0 < 10 by omega); omega
      · exact hacc b hb

theorem decBytes_mem (n : Nat) : ∀ b ∈ decBytes n, 48 ≤ b ∧ b ≤ 57 := by
  by_cases h0 : n = 0
  · subst h0; intro b hb; simp [decBytes] at hb; omega
  · simp only [decBytes, h0, if_false]
    exact decDigitsAux_mem n n [] (by intro b hb; cases hb)

/-! ## The digest renders in lowercase hex -/

theorem wordBytes_mem_lt (x : Nat) : ∀ b ∈ wordBytes x, b < 256 := by
  intro b hb
  simp only [wordBytes, List.mem_cons, List.not_mem_nil, or_false] at hb
  rcases hb with h | h | h | h <;> (subst h; exact Nat.mod_lt _ (by omega))

theorem sha1_mem_lt (msg : List Nat) : ∀ b ∈ sha1 msg, b < 256 := by
  intro b hb
  unfold sha1 at hb
  simp only [List.mem_append] at hb
  rcases hb with (((h | h) | h) | h) | h <;> exact wordBytes_mem_lt _ b h

theorem hexDigitByte_lower {d : Nat} (hd : d < 16) :
    isLowerHexDigit (hexDigitByte d) = true := by
  unfold hexDigitByte isLowerHexDigit
  by_cases h : d < 10 <;> simp [h] <;> omega

theorem listStartsWith_false_of_bad_byte {hay pat : List Nat}
    (hhay : ∀ c ∈ hay, isLowerHexDigit c = true)
    (hpat : ∃ c ∈ pat, isLowerHexDigit c = false) :
    listStartsWith hay pat = false := by
  by_contra hne
  have hsw : listStartsWith hay pat = true := by
    cases h : listStartsWith hay pat
    · exact absurd h hne
    · rfl
  obtain ⟨c, hc, hbad⟩ := hpat
  have := hhay c (mem_of_listStartsWith hsw c hc)
  rw [this] at hbad
  cases hbad

theorem hexDigest_mem_lower (msg : List Nat) :
    ∀ c ∈ hexDigest msg, isLowerHexDigit c = true := by
  intro c hc
  unfold hexDigest at hc
  rw [List.mem_flatten] at hc
  obtain ⟨l, hl, hcl⟩ := hc
  rw [List.mem_map] at hl
  obtain ⟨b, hb, rfl⟩ := hl
  have hb256 : b < 256 := sha1_mem_lt msg b hb
  rcases List.mem_cons.1 hcl with h | h
  · subst h; exact hexDigitByte_lower (by omega)
  · rcases List.mem_cons.1 h with h | h
    · subst h; exact hexDigitByte_lower (Nat.mod_lt _ (by omega))
    · cases h

/-! ## Invariants of the concurrent search -/

theorem step_regInv {check : Nat → Bool} {s t : SearchState}
    (h : Step check s t) (hi : RegInv check s) : RegInv check t := by
  cases h with
  | exitEarly i hw hr =>
    refine ⟨hi.1, fun n hn => ?_⟩
    rcases List.mem_or_eq_of_mem_set hn with h1 | h1
    · exact hi.2 n h1
    · cases h1
  | observeEmpty i hw hr =>
    refine ⟨hi.1, fun n hn => ?_⟩
    rcases List.mem_or_eq_of_mem_set hn with h1 | h1
    · exact hi.2 n h1
    · cases h1
  | claimBlock i hw =>
    refine ⟨hi.1, fun n hn => ?_⟩
    rcases List.mem_or_eq_of_mem_set hn with h1 | h1
    · exact hi.2 n h1
    · cases h1
  | testBlockHit i ns n hw hf =>
    refine ⟨hi.1, fun n2 hn => ?_⟩
    rcases List.mem_or_eq_of_mem_set hn with h1 | h1
    · exact hi.2 n2 h1
    · injection h1 with h2; subst h2; exact List.find?_some hf
  | testBlockMiss i ns hw hf =>
    refine ⟨hi.1, fun n hn => ?_⟩
    rcases List.mem_or_eq_of_mem_set hn with h1 | h1
    · exact hi.2 n h1
    · cases h1
  | casPublish i n hw =>
    constructor
    · intro hr
      by_cases h0 : s.reg = 0
      · have : casReg s.reg n = n := by simp [casReg, h0]
        simp only [this] at hr ⊢
        exact hi.2 n (List.getElem?_mem hw)
      · have : casReg s.reg n = s.reg := by simp [casReg, h0]
        simp only [this] at hr ⊢
        exact hi.1 h0
    · intro n2 hn
      rcases List.mem_or_eq_of_mem_set hn with h1 | h1
      · exact hi.2 n2 h1
      · cases h1

theorem step_reg_stable {check : Nat → Bool} {s t : SearchState}
    (h : Step check s t) (hr : s.reg ≠ 0) : t.reg = s.reg := by
  cases h with
  | casPublish i n hw => simp [casReg, hr]
  | exitEarly i hw hr2 => rfl
  | observeEmpty i hw hr2 => rfl
  | claimBlock i hw => rfl
  | testBlockHit i ns n hw hf => rfl
  | testBlockMiss i ns hw hf => rfl

theorem reach_regInv {check : Nat → Bool} {s t : SearchState}
    (h : Relation.ReflTransGen (Step check) s t) (hi : RegInv check s) :
    RegInv check t := by
  induction h with
  | refl => exact hi
  | tail h1 hstep ih => exact step_regInv hstep ih

theorem reach_reg_stable {check : Nat → Bool} {s t : SearchState}
    (h : Relation.ReflTransGen (Step check) s t) (hr : s.reg ≠ 0) : t.reg = s.reg := by
  induction h with
  | refl => rfl
  | tail h1 hstep ih =>
    rw [step_reg_stable hstep (by rw [ih]; exact hr)]
    exact ih

theorem initState_regInv {check : Nat → Bool} {s : SearchState}
    (h : InitState s) : RegInv check s := by
  refine ⟨fun hr => absurd h.1 hr, fun n hn => ?_⟩
  have := h.2 (WStatus.willCas n) hn
  cases this

/-! ## The claims -/

/-- C1: the claim says a worker tests every one of the 100 nonces in
`[v, v + 100)` of a claimed block.  The code's inner loop is
`for i in 0..99`, which runs `i = 0, …, 98`: the block claimed at
`v = 1` covers `[1, 101)` (the allocator strides by 100) but only the 99
nonces `1, …, 99` are tested — nonce `100 = v + 99` is never tested by
any worker. -/
theorem worker_block_skips_last_nonce :
    (blockNonces 1).length = 99 ∧ 100 ∉ blockNonces 1 := by decide

set_option maxRecDepth 1000000 in
set_option maxHeartbeats 4000000 in
/-- Evaluation: the concrete trial predicate finds no match in this nonce range. -/
theorem cexCheck_none_3521_3545 :
    List.find? cexCheck
      [3521, 3522, 3523, 3524, 3525, 3526, 3527, 3528, 3529, 3530, 3531, 3532,
      3533, 3534, 3535, 3536, 3537, 3538, 3539, 3540, 3541, 3542, 3543,
      3544, 3545] = none := by decide

set_option maxRecDepth 1000000 in
set_option maxHeartbeats 4000000 in
/-- Evaluation: the concrete trial predicate finds no match in this nonce range. -/
theorem cexCheck_none_3546_3570 :
    List.find? cexCheck
      [3546, 3547, 3548, 3549, 3550, 3551, 3552, 3553, 3554, 3555, 3556, 3557,
      3558, 3559, 3560, 3561, 3562, 3563, 3564, 3565, 3566, 3567, 3568,
      3569, 3570] = none := by decide

set_option maxRecDepth 1000000 in
set_option maxHeartbeats 4000000 in
/-- Evaluation: the concrete trial predicate finds no match in this nonce range. -/
theorem cexCheck_none_3571_3595 :
    List.find? cexCheck
      [3571, 3572, 3573, 3574, 3575, 3576, 3577, 3578, 3579, 3580, 3581, 3582,
      3583, 3584, 3585, 3586, 3587, 3588, 3589, 3590, 3591, 3592, 3593,
      3594, 3595] = none := by decide

set_option maxRecDepth 1000000 in
set_option maxHeartbeats 4000000 in
/-- Evaluation: the concrete trial predicate finds no match in this nonce range. -/
theorem cexCheck_none_3596_3619 :
    List.find? cexCheck
      [3596, 3597, 3598, 3599, 3600, 3601, 3602, 3603, 3604, 3605, 3606, 3607,
      3608, 3609, 3610, 3611, 3612, 3613, 3614, 3615, 3616, 3617, 3618,
      3619] = none := by decide

set_option maxRecDepth 1000000 in
set_option maxHeartbeats 4000000 in
/-- Evaluation: the concrete trial predicate finds 3620 first in this nonce range. -/
theorem cexCheck_some_3620 :
    List.find? cexCheck
      [3620] = some 3620 := by decide

set_option maxRecDepth 1000000 in
set_option maxHeartbeats 4000000 in
/-- Evaluation: the concrete trial predicate finds no match in this nonce range. -/
theorem cexCheck_none_3621_3645 :
    List.find? cexCheck
      [3621, 3622, 3623, 3624, 3625, 3626, 3627, 3628, 3629, 3630, 3631, 3632,
      3633, 3634, 3635, 3636, 3637, 3638, 3639, 3640, 3641, 3642, 3643,
      3644, 3645] = none := by decide

set_option maxRecDepth 1000000 in
set_option maxHeartbeats 4000000 in
/-- Evaluation: the concrete trial predicate finds no match in this nonce range. -/
theorem cexCheck_none_3646_3665 :
    List.find? cexCheck
      [3646, 3647, 3648, 3649, 3650, 3651, 3652, 3653, 3654, 3655, 3656, 3657,
      3658, 3659, 3660, 3661, 3662, 3663, 3664, 3665] = none := by decide

set_option maxRecDepth 1000000 in
set_option maxHeartbeats 4000000 in
/-- Evaluation: the concrete trial predicate finds 3666 first in this nonce range. -/
theorem cexCheck_some_3666 :
    List.find? cexCheck
      [3666, 3667, 3668, 3669, 3670, 3671, 3672, 3673, 3674, 3675, 3676, 3677,
      3678, 3679, 3680, 3681, 3682, 3683, 3684, 3685, 3686, 3687, 3688,
      3689, 3690, 3691, 3692, 3693, 3694, 3695, 3696, 3697, 3698, 3699,
      3700, 3701, 3702, 3703, 3704, 3705, 3706, 3707, 3708, 3709, 3710,
      3711, 3712, 3713, 3714, 3715, 3716, 3717, 3718, 3719] = some 3666 := by decide

/-- The first claimed block `[3521, 3620)` contains no match: the 99
nonces actually tested when the block at 3521 is claimed all fail. -/
theorem block_3521_find_none : (blockNonces 3521).find? cexCheck = none := by
  have hsplit : blockNonces 3521 =
      [3521, 3522, 3523, 3524, 3525, 3526, 3527, 3528, 3529, 3530, 3531, 3532,
      3533, 3534, 3535, 3536, 3537, 3538, 3539, 3540, 3541, 3542, 3543,
      3544, 3545] ++
      ([3546, 3547, 3548, 3549, 3550, 3551, 3552, 3553, 3554, 3555, 3556, 3557,
      3558, 3559, 3560, 3561, 3562, 3563, 3564, 3565, 3566, 3567, 3568,
      3569, 3570] ++
      ([3571, 3572, 3573, 3574, 3575, 3576, 3577, 3578, 3579, 3580, 3581, 3582,
      3583, 3584, 3585, 3586, 3587, 3588, 3589, 3590, 3591, 3592, 3593,
      3594, 3595] ++
      [3596, 3597, 3598, 3599, 3600, 3601, 3602, 3603, 3604, 3605, 3606, 3607,
      3608, 3609, 3610, 3611, 3612, 3613, 3614, 3615, 3616, 3617, 3618,
      3619])) := by decide
  rw [hsplit, List.find?_append, List.find?_append, List.find?_append,
    cexCheck_none_3521_3545, cexCheck_none_3546_3570, cexCheck_none_3571_3595,
    cexCheck_none_3596_3619]
  rfl

/-- The second claimed block finds 3666 (3620 was skipped, 3621-3665 fail). -/
theorem block_3621_find_some :
    (blockNonces ((3521 + 100) % u64Mod)).find? cexCheck = some 3666 := by
  have hsplit : blockNonces ((3521 + 100) % u64Mod) =
      [3621, 3622, 3623, 3624, 3625, 3626, 3627, 3628, 3629, 3630, 3631, 3632,
      3633, 3634, 3635, 3636, 3637, 3638, 3639, 3640, 3641, 3642, 3643,
      3644, 3645] ++
      ([3646, 3647, 3648, 3649, 3650, 3651, 3652, 3653, 3654, 3655, 3656, 3657,
      3658, 3659, 3660, 3661, 3662, 3663, 3664, 3665] ++
      [3666, 3667, 3668, 3669, 3670, 3671, 3672, 3673, 3674, 3675, 3676, 3677,
      3678, 3679, 3680, 3681, 3682, 3683, 3684, 3685, 3686, 3687, 3688,
      3689, 3690, 3691, 3692, 3693, 3694, 3695, 3696, 3697, 3698, 3699,
      3700, 3701, 3702, 3703, 3704, 3705, 3706, 3707, 3708, 3709, 3710,
      3711, 3712, 3713, 3714, 3715, 3716, 3717, 3718, 3719]) := by decide
  rw [hsplit, List.find?_append, List.find?_append,
    cexCheck_none_3621_3645, cexCheck_none_3646_3665, cexCheck_some_3666]
  rfl

/-- Evaluation: the reference brute-force scan from 3521 on the concrete
template with prefix condition `"0"` finds 3620 = 3521 + 99. -/
theorem bruteScan_from_3521_eq : bruteScan cexCheck 3521 100 = some 3620 := by
  have hsplit : (List.range 100).map (fun i => 3521 + i) =
      [3521, 3522, 3523, 3524, 3525, 3526, 3527, 3528, 3529, 3530, 3531, 3532,
      3533, 3534, 3535, 3536, 3537, 3538, 3539, 3540, 3541, 3542, 3543,
      3544, 3545] ++
      ([3546, 3547, 3548, 3549, 3550, 3551, 3552, 3553, 3554, 3555, 3556, 3557,
      3558, 3559, 3560, 3561, 3562, 3563, 3564, 3565, 3566, 3567, 3568,
      3569, 3570] ++
      ([3571, 3572, 3573, 3574, 3575, 3576, 3577, 3578, 3579, 3580, 3581, 3582,
      3583, 3584, 3585, 3586, 3587, 3588, 3589, 3590, 3591, 3592, 3593,
      3594, 3595] ++
      ([3596, 3597, 3598, 3599, 3600, 3601, 3602, 3603, 3604, 3605, 3606, 3607,
      3608, 3609, 3610, 3611, 3612, 3613, 3614, 3615, 3616, 3617, 3618,
      3619] ++
      [3620]))) := by decide
  unfold bruteScan
  rw [hsplit, List.find?_append, List.find?_append, List.find?_append,
    List.find?_append, cexCheck_none_3521_3545, cexCheck_none_3546_3570,
    cexCheck_none_3571_3595, cexCheck_none_3596_3619, cexCheck_some_3620]
  rfl

/-- Evaluation: the single-worker search loop started at 3521 on the same
template and condition returns 3666, not 3620: its first claimed block
tests only `[3521, 3620)`, skipping 3620. -/
theorem searchLoop_succ (check : Nat → Bool) (fuel counter : Nat) :
    searchLoop check (fuel + 1) counter =
      match (blockNonces counter).find? check with
      | some n => some n
      | none => searchLoop check fuel ((counter + 100) % u64Mod) := rfl

theorem searchLoop_from_3521_eq : searchLoop cexCheck 2 3521 = some 3666 := by
  rw [show (2 : Nat) = 1 + 1 from rfl, searchLoop_succ, block_3521_find_none]
  show searchLoop cexCheck 1 ((3521 + 100) % u64Mod) = some 3666
  rw [show (1 : Nat) = 0 + 1 from rfl, searchLoop_succ, block_3621_find_some]

/-- C2: the claim says the single-threaded search returns the smallest
matching nonce ≥ s, equal to a brute-force scan.  At the concrete
template (header `"c A"`, message `"m"`, committer `"A"`), prefix
condition `"0"` and starting nonce 3521, the brute-force scan finds
3620 = 3521 + 99, but the search skips the last nonce of each claimed
block and returns 3666 instead. -/
theorem single_thread_search_misses_smallest :
    bruteScan (fun n => check_commit_with_nonce [99, 32, 65] [109] [65] n [48] none)
        3521 100 = some 3620 ∧
    searchLoop (fun n => check_commit_with_nonce [99, 32, 65] [109] [65] n [48] none)
        2 3521 = some 3666 :=
  ⟨bruteScan_from_3521_eq, searchLoop_from_3521_eq⟩

set_option maxRecDepth 1000000 in
/-- C3 counterexample: the claim says the prefix comparison is
case-insensitive.  For the encoded commit of the template
(`"c A"`, `"m"`, `"A"`) at nonce 7, the digest's lowercase rendering
starts with `"a"`, yet the predicate rejects the uppercase prefix
`"A"`: the comparison is a byte-exact `starts_with`. -/
theorem uppercase_prefix_fails_cex :
    check_encode [99, 32, 65] [109] [65] 7 =
      some (commitTag ++ [55, 0, 99, 32, 55, 95, 65, 10, 109]) ∧
    listStartsWith
      (hexDigest (commitTag ++ [55, 0, 99, 32, 55, 95, 65, 10, 109])) [97] = true ∧
    hashMatches (commitTag ++ [55, 0, 99, 32, 55, 95, 65, 10, 109]) [65] none = false := by
  decide

/-- C3 amended: the Match Predicate compares the required prefix
byte-for-byte (case-sensitively) against the lowercase hex rendering of
the digest; a prefix containing any byte that is not a lowercase hex
digit — in particular an uppercase hexadecimal letter — never
matches. -/
theorem prefix_match_case_sensitive (full_commit desired : List Nat)
    (hidden : Option (List Nat))
    (hbad : ∃ c ∈ desired, isLowerHexDigit c = false) :
    hashMatches full_commit desired hidden = false := by
  have hsw : listStartsWith (hexDigest full_commit) desired = false :=
    listStartsWith_false_of_bad_byte (hexDigest_mem_lower full_commit) hbad
  unfold hashMatches
  cases hidden <;> simp [hsw]

set_option maxRecDepth 1000000 in
/-- Witness for `prefix_match_case_sensitive` at the concrete encoded
commit of nonce 7 and the uppercase prefix `"A"`. -/
theorem prefix_match_case_sensitive_witness :
    (∃ c ∈ [65], isLowerHexDigit c = false) ∧
    hashMatches (commitTag ++ [55, 0, 99, 32, 55, 95, 65, 10, 109]) [65] none = false :=
  ⟨by decide, prefix_match_case_sensitive _ _ none (by decide)⟩

/-- C4: the Match Predicate returns true iff (no prefix is required —
the empty prefix the orchestrator passes when `-h` is absent — or the
lowercase digest starts with it) and (no substring is required or the
lowercase digest contains it anywhere); the empty prefix check is
trivially true. -/
theorem predicate_iff_prefix_and_substring (full_commit desired : List Nat)
    (hidden : Option (List Nat)) :
    hashMatches full_commit desired hidden = true ↔
      ((desired = [] ∨ listStartsWith (hexDigest full_commit) desired = true) ∧
        (hidden = none ∨ ∃ sub, hidden = some sub ∧
          listContainsSub (hexDigest full_commit) sub = true)) := by
  cases hidden with
  | none =>
    show listStartsWith (hexDigest full_commit) desired = true ↔ _
    constructor
    · intro h; exact ⟨Or.inr h, Or.inl rfl⟩
    · rintro ⟨h1, _⟩
      rcases h1 with h1 | h1
      · subst h1; exact listStartsWith_nil _
      · exact h1
  | some sub =>
    show (listStartsWith (hexDigest full_commit) desired &&
        listContainsSub (hexDigest full_commit) sub) = true ↔ _
    rw [Bool.and_eq_true]
    constructor
    · intro h
      exact ⟨Or.inr h.1, Or.inr ⟨sub, rfl, h.2⟩⟩
    · rintro ⟨h1, h2⟩
      refine ⟨?_, ?_⟩
      · rcases h1 with h1 | h1
        · subst h1; exact listStartsWith_nil _
        · exact h1
      · rcases h2 with h2 | ⟨sub2, hs, h2⟩
        · cases h2
        · injection hs with hs; subst hs; exact h2

/-- C5: given that the committer identity occurs in the raw header,
`rfind` returns its last occurrence `pos`, and the encoder output is
exactly `"commit " ++ decimal(len body) ++ NUL ++ body` where `body` is
the header with the occurrence at `pos` replaced by
`lowercase-unpadded-hex(nonce) ++ "_" ++ identity`, a newline, and the
raw message. -/
theorem encoder_output_eq_spec (raw_header raw_message committer_name : List Nat)
    (nonce pos : Nat) (hpos : rfind raw_header committer_name = some pos) :
    subAt raw_header committer_name pos = true ∧
    (∀ j ≤ raw_header.length, subAt raw_header committer_name j = true → j ≤ pos) ∧
    check_encode raw_header raw_message committer_name nonce =
      some (commitTag ++
        decBytes (specEncodedBody raw_header raw_message committer_name nonce pos).length ++
        0 :: specEncodedBody raw_header raw_message committer_name nonce pos) := by
  refine ⟨rfind_some_sub hpos, rfind_some_max hpos, ?_⟩
  unfold check_encode
  rw [hpos]
  simp [specEncodedBody, List.append_assoc]

/-- Witness for `encoder_output_eq_spec` at the concrete template and
nonce 5: the committer name `"A"` last occurs at byte 2 of `"c A"`. -/
theorem encoder_output_eq_spec_witness :
    rfind [99, 32, 65] [65] = some 2 ∧
    (subAt [99, 32, 65] [65] 2 = true ∧
      (∀ j ≤ ([99, 32, 65] : List Nat).length, subAt [99, 32, 65] [65] j = true → j ≤ 2) ∧
      check_encode [99, 32, 65] [109] [65] 5 =
        some (commitTag ++
          decBytes (specEncodedBody [99, 32, 65] [109] [65] 5 2).length ++
          0 :: specEncodedBody [99, 32, 65] [109] [65] 5 2)) :=
  ⟨by decide, encoder_output_eq_spec [99, 32, 65] [109] [65] 5 2 (by decide)⟩

/-- C6: every encoder output parses as a preface `"commit " ++ digits`
followed by exactly one NUL byte and then the body; the digits decode to
the body's exact byte length, and no byte of the preface is NUL (so the
single NUL separates preface from body). -/
theorem framing_length_round_trip (raw_header raw_message committer_name : List Nat)
    (nonce : Nat) (out : List Nat)
    (he : check_encode raw_header raw_message committer_name nonce = some out) :
    ∃ body, out = (commitTag ++ decBytes body.length) ++ 0 :: body ∧
      decValue (decBytes body.length) = body.length ∧
      ∀ b ∈ commitTag ++ decBytes body.length, b ≠ 0 := by
  unfold check_encode at he
  cases hf : rfind raw_header committer_name with
  | none => rw [hf] at he; cases he
  | some pos =>
    rw [hf] at he
    simp only [Option.some.injEq] at he
    subst he
    refine ⟨List.take pos raw_header ++ (hexBytes nonce ++ 95 :: committer_name) ++
        List.drop (pos + committer_name.length) raw_header ++ [10] ++ raw_message,
      by rw [List.append_assoc], decValue_decBytes _, ?_⟩
    intro b hb
    rcases List.mem_append.1 hb with hb | hb
    · simp only [commitTag, List.mem_cons, List.not_mem_nil, or_false] at hb
      rcases hb with h | h | h | h | h | h | h <;> omega
    · have := decBytes_mem _ b hb; omega

/-- Witness for `framing_length_round_trip` at the concrete template and
nonce 1, whose output is `"commit 7\0c 1_A\nm"`. -/
theorem framing_length_round_trip_witness :
    ∃ body, (commitTag ++ [55, 0, 99, 32, 49, 95, 65, 10, 109]) =
        (commitTag ++ decBytes body.length) ++ 0 :: body ∧
      decValue (decBytes body.length) = body.length ∧
      ∀ b ∈ commitTag ++ decBytes body.length, b ≠ 0 :=
  framing_length_round_trip [99, 32, 65] [109] [65] 1 _ (by decide)

/-- C7 counterexample: sanitation is not idempotent.  The regex strips
exactly one leading `hex_` tag, so `"1a2b_3c4d_Alice"` sanitizes to
`"3c4d_Alice"`, which sanitizes again to `"Alice"`. -/
theorem sanitize_not_idempotent_cex :
    sanitize_committer_name (sanitize_committer_name
        [49, 97, 50, 98, 95, 51, 99, 52, 100, 95, 65, 108, 105, 99, 101]) ≠
      sanitize_committer_name
        [49, 97, 50, 98, 95, 51, 99, 52, 100, 95, 65, 108, 105, 99, 101] := by decide

/-- C7 amended: sanitation strips exactly one leading hex-underscore
tag, so it is idempotent exactly on names whose sanitized form does not
itself begin with such a tag (in particular on already-sanitized names
produced from singly-tagged inputs); `sanitize "1a2b_Alice" = "Alice"`
does hold. -/
theorem sanitize_idempotent_amended (s : List Nat)
    (hs : hasLeadingTag (sanitize_committer_name s) = false) :
    sanitize_committer_name (sanitize_committer_name s) = sanitize_committer_name s ∧
    sanitize_committer_name [49, 97, 50, 98, 95, 65, 108, 105, 99, 101] =
      [65, 108, 105, 99, 101] := by
  refine ⟨?_, by decide⟩
  generalize sanitize_committer_name s = t at hs ⊢
  unfold sanitize_committer_name
  rw [hs]
  simp

/-- Witness for `sanitize_idempotent_amended` at the singly-tagged name
`"1a2b_Alice"`. -/
theorem sanitize_idempotent_amended_witness :
    hasLeadingTag (sanitize_committer_name [49, 97, 50, 98, 95, 65, 108, 105, 99, 101]) =
      false ∧
    (sanitize_committer_name (sanitize_committer_name
        [49, 97, 50, 98, 95, 65, 108, 105, 99, 101]) =
      sanitize_committer_name [49, 97, 50, 98, 95, 65, 108, 105, 99, 101] ∧
    sanitize_committer_name [49, 97, 50, 98, 95, 65, 108, 105, 99, 101] =
      [65, 108, 105, 99, 101]) :=
  ⟨by decide, sanitize_idempotent_amended _ (by decide)⟩

/-- C8: when the committer identity occurs nowhere in the raw header,
the trial returns `false` (a non-match, not an error) for every nonce,
and the worker's block scan finds no match, so it continues. -/
theorem anchor_not_found_non_match (raw_header raw_message committer_name desired : List Nat)
    (hidden : Option (List Nat)) (nonce : Nat)
    (hno : ∀ i ≤ raw_header.length, subAt raw_header committer_name i = false) :
    check_commit_with_nonce raw_header raw_message committer_name nonce desired hidden =
      false ∧
    ∀ v, (blockNonces v).find?
        (fun k => check_commit_with_nonce raw_header raw_message committer_name k
          desired hidden) = none := by
  have hrf : rfind raw_header committer_name = none := by
    cases hf : rfind raw_header committer_name with
    | none => rfl
    | some i =>
      have h1 := rfind_some_sub hf
      have h2 : i ≤ raw_header.length := (rfindAux_some hf).2
      rw [hno i h2] at h1; cases h1
  have hcheck : ∀ k,
      check_commit_with_nonce raw_header raw_message committer_name k desired hidden =
        false := by
    intro k
    unfold check_commit_with_nonce check_encode
    rw [hrf]
  refine ⟨hcheck nonce, fun v => ?_⟩
  rw [List.find?_eq_none]
  intro x _
  simp [hcheck x]

/-- Witness for `anchor_not_found_non_match`: the header `"b"` does not
contain the committer name `"A"`. -/
theorem anchor_not_found_non_match_witness :
    (∀ i ≤ ([98] : List Nat).length, subAt [98] [65] i = false) ∧
    (check_commit_with_nonce [98] [109] [65] 1 [48] none = false ∧
      ∀ v, (blockNonces v).find?
        (fun k => check_commit_with_nonce [98] [109] [65] k [48] none) = none) :=
  ⟨by decide, anchor_not_found_non_match [98] [109] [65] [48] none 1 (by decide)⟩

/-- C9: from any initial state, along any interleaving of any number of
workers, a nonzero result register holds a nonce accepted by the Match
Predicate for the shared template and condition, and once nonzero the
register never changes again — the register is written (via
compare-and-set) at most once. -/
theorem result_register_write_once (raw_header raw_message committer_name desired : List Nat)
    (hidden : Option (List Nat)) (s t u : SearchState)
    (hinit : InitState s)
    (h1 : Relation.ReflTransGen
      (Step (fun n => check_commit_with_nonce raw_header raw_message committer_name n
        desired hidden)) s t)
    (h2 : Relation.ReflTransGen
      (Step (fun n => check_commit_with_nonce raw_header raw_message committer_name n
        desired hidden)) t u) :
    (t.reg ≠ 0 →
      check_commit_with_nonce raw_header raw_message committer_name t.reg desired hidden =
        true) ∧
    (t.reg ≠ 0 → u.reg = t.reg) := by
  have hinv := reach_regInv h1 (initState_regInv hinit)
  exact ⟨hinv.1, fun hr => reach_reg_stable h2 hr⟩

set_option maxRecDepth 1000000 in
set_option maxHeartbeats 1000000 in
/-- Witness for `result_register_write_once`: a concrete one-worker
execution on the concrete template with prefix `"a"` that claims the
block at 1, finds nonce 7, and publishes it. -/
theorem result_register_write_once_witness :
    ((SearchState.mk 101 7 [WStatus.stopped]).reg ≠ 0 →
      check_commit_with_nonce [99, 32, 65] [109] [65]
        (SearchState.mk 101 7 [WStatus.stopped]).reg [97] none = true) ∧
    ((SearchState.mk 101 7 [WStatus.stopped]).reg ≠ 0 →
      (SearchState.mk 101 7 [WStatus.stopped]).reg =
        (SearchState.mk 101 7 [WStatus.stopped]).reg) :=
  result_register_write_once [99, 32, 65] [109] [65] [97] none
    ⟨1, 0, [WStatus.ready]⟩ ⟨101, 7, [WStatus.stopped]⟩ ⟨101, 7, [WStatus.stopped]⟩
    (by exact ⟨rfl, fun w hw => by simpa using hw⟩)
    (Relation.ReflTransGen.head (Step.observeEmpty ⟨1, 0, [WStatus.ready]⟩ 0 (by decide) rfl)
      (Relation.ReflTransGen.head (Step.claimBlock ⟨1, 0, [WStatus.loaded]⟩ 0 (by decide))
        (Relation.ReflTransGen.head
          (Step.testBlockHit ⟨101, 0, [WStatus.testing (blockNonces 1)]⟩ 0
            (blockNonces 1) 7 (by decide) (by decide))
          (Relation.ReflTransGen.head
            (Step.casPublish ⟨101, 0, [WStatus.willCas 7]⟩ 0 7 (by decide))
            Relation.ReflTransGen.refl))))
    Relation.ReflTransGen.refl

/-- C10: the register's empty sentinel is the integer 0, so
`compare_exchange(0, 0)` for a winning nonce 0 leaves the register
empty, the orchestrator reads it as "no match found", a worker at the
top of its loop does not observe termination while the register is 0,
and any reported winner is necessarily nonzero. -/
theorem zero_sentinel_reported_nonzero (check : Nat → Bool) (s t : SearchState)
    (i r n : Nat)
    (hrep : reportResult r = some n)
    (hready : s.workers[i]? = some WStatus.ready)
    (hreg : s.reg = 0)
    (hstep : Step check s t) :
    casReg 0 0 = 0 ∧ reportResult (casReg 0 0) = none ∧ n ≠ 0 ∧
      t.workers[i]? ≠ some WStatus.stopped := by
  refine ⟨rfl, rfl, ?_, ?_⟩
  · unfold reportResult at hrep
    by_cases h0 : r = 0
    · rw [if_pos h0] at hrep; cases hrep
    · rw [if_neg h0] at hrep
      injection hrep with h
      omega
  · cases hstep with
    | exitEarly j hw hr => exact absurd hreg hr
    | observeEmpty j hw hr =>
      by_cases hij : j = i
      · subst hij
        have hlen : j < s.workers.length := by
          rcases List.getElem?_eq_some_iff.1 hready with ⟨hl, _⟩
          exact hl
        rw [List.getElem?_set_self hlen]
        simp
      · rw [List.getElem?_set_ne hij, hready]
        simp
    | claimBlock j hw =>
      by_cases hij : j = i
      · subst hij; simp [hready] at hw
      · rw [List.getElem?_set_ne hij, hready]; simp
    | testBlockHit j ns n2 hw hf =>
      by_cases hij : j = i
      · subst hij; simp [hready] at hw
      · rw [List.getElem?_set_ne hij, hready]; simp
    | testBlockMiss j ns hw hf =>
      by_cases hij : j = i
      · subst hij; simp [hready] at hw
      · rw [List.getElem?_set_ne hij, hready]; simp
    | casPublish j n2 hw =>
      by_cases hij : j = i
      · subst hij; simp [hready] at hw
      · rw [List.getElem?_set_ne hij, hready]; simp

/-- Witness for `zero_sentinel_reported_nonzero`: the reported value 5,
and a ready worker taking the observe-empty step. -/
theorem zero_sentinel_reported_nonzero_witness :
    casReg 0 0 = 0 ∧ reportResult (casReg 0 0) = none ∧ (5 : Nat) ≠ 0 ∧
      (SearchState.mk 1 0 ([WStatus.ready].set 0 WStatus.loaded)).workers[0]? ≠
        some WStatus.stopped :=
  zero_sentinel_reported_nonzero (fun _ => true) ⟨1, 0, [WStatus.ready]⟩
    ⟨1, 0, [WStatus.ready].set 0 WStatus.loaded⟩ 0 5 5 (by decide) (by decide) rfl
    (Step.observeEmpty ⟨1, 0, [WStatus.ready]⟩ 0 (by decide) rfl)

end GitCustomHash
